import Mathlib

/-!
Shallow embedding of the Matrix Direct-Match Resolver from
`src/server/server.js` (functions `norm`, `isNoValue`, `normalizeYesNo`,
`detectHeaderRowIndex`, `buildHeaderMap`, `extractMatrixSteps`,
`expandQueryVariants`, `scoreMatch`, `findDirectMatrixAnswer`).

Modelling conventions:
* JavaScript strings are Lean `String`s; a cell read `row[i]` that may be
  `undefined` is modelled by `List.getD i ""` since `String(x ?? "")` turns
  `undefined` into the empty string before any use.
* Values that may fail `Array.isArray` / `typeof === "object"` checks are
  modelled by sum types (`JRow`, `JSheet`, `JDoc`) with an explicit
  "not an array / not an object" constructor.
* The regex character classes `\p{L}` / `\p{N}` (Unicode letters / digits)
  are modelled on the ASCII fragment by `Char.isAlpha` / `Char.isDigit`,
  and `\s` by the ASCII whitespace characters; every concrete input used
  below is ASCII, where the model agrees with the JavaScript semantics.
* The `-1` sentinel returned by `detectHeaderRowIndex` is modelled as
  `Option Nat` (`none` for `-1`).
-/

/-- ASCII whitespace, the fragment of the JS regex class `\s` used here. -/
def isWS (c : Char) : Bool :=
  c = ' ' || c = '\t' || c = '\n' || c = '\r' || c = '\x0b' || c = '\x0c'

/-- A character kept by the final `replace(/[^\p{L}\p{N}\s]/gu, "")` step of
`norm`: a letter, a digit, or whitespace. -/
def isWordChar (c : Char) : Bool :=
  c.isAlpha || c.isDigit || isWS c

/-- JS `String.prototype.trim` on a character list: drop whitespace from both
ends. -/
def jsTrimList (l : List Char) : List Char :=
  ((l.dropWhile isWS).reverse.dropWhile isWS).reverse

/-- JS `String.prototype.trim` on a string. -/
def jsTrimStr (s : String) : String :=
  ⟨jsTrimList s.data⟩

/-- JS `replace(/\s+/g, " ")`: each maximal run of whitespace becomes one
space.  The Boolean flag records whether the previous character was part of a
whitespace run already emitted. -/
def collapseWS : Bool → List Char → List Char
  | _, [] => []
  | inRun, c :: rest =>
    if isWS c then
      if inRun then collapseWS true rest else ' ' :: collapseWS true rest
    else
      c :: collapseWS false rest

/-- `norm` from `server.js`:
`String(s ?? "").toLowerCase().trim().replace(/\s+/g, " ").replace(/[^\p{L}\p{N}\s]/gu, "")`. -/
def norm (s : String) : String :=
  ⟨(collapseWS false (jsTrimList (s.data.map Char.toLower))).filter isWordChar⟩

/-- `isNoValue` from `server.js` (`isAbsent` in the spec). -/
def isNoValue (v : String) : Bool :=
  let s := norm v
  s = "" || s = "no" || s = "n" || s = "none" || s = "na" || s = "n a" ||
    s = "n/a" || s = "0" || s = "false"

/-- `normalizeYesNo` from `server.js`. -/
def normalizeYesNo (v : String) : String :=
  let s := norm v
  if s = "y" || s = "yes" || s = "true" || s = "1" then "Yes"
  else if s = "n" || s = "no" || s = "false" || s = "0" then "No"
  else jsTrimStr v

/-- `pat` occurs as a contiguous sublist of the second argument. -/
def listIsInfixOf (pat : List Char) : List Char → Bool
  | [] => pat.isEmpty
  | l@(_ :: rest) => pat.isPrefixOf l || listIsInfixOf pat rest

/-- JS `a.includes(b)`: `b` occurs as a contiguous substring of `a`. -/
def jsIncludes (s sub : String) : Bool :=
  listIsInfixOf sub.data s.data

/-- A spreadsheet row as seen by the resolver: either an array of cell
strings or a value failing `Array.isArray`. -/
inductive JRow where
  | notArr
  | arr (cells : List String)
deriving DecidableEq, Repr

/-- The value stored under one tab name: either an array of rows or a value
failing `Array.isArray`. -/
inductive JSheet where
  | notArr
  | arr (rows : List JRow)
deriving DecidableEq, Repr

/-- The matrix document handed to the resolver: either an object (its
entries in `Object.entries` order) or a falsy / non-object value. -/
inductive JDoc where
  | notObj
  | obj (entries : List (String × JSheet))
deriving DecidableEq, Repr

/-- Does this row make `detectHeaderRowIndex` stop?  Non-array rows never do
(`continue`); otherwise the cells are normalized, joined with `" | "`, and
the result is searched for the three header keywords. -/
def isHeaderRow : JRow → Bool
  | .notArr => false
  | .arr cells =>
    let joined := String.intercalate " | " (cells.map norm)
    jsIncludes joined "instructions" || jsIncludes joined "concern" ||
      jsIncludes joined "issue"

/-- `detectHeaderRowIndex` from `server.js`: index of the first header-like
row among the first 40 rows, `none` for the `-1` sentinel. -/
def detectHeaderRowIndex (rows : List JRow) : Option Nat :=
  ((rows.take 40).enum.find? (fun p => isHeaderRow p.2)).map (fun p => p.1)

/-- `buildHeaderMap` from `server.js`: association list from normalized
header label to its first column index; empty cells and non-array header rows
contribute nothing, and only the first occurrence of a label is kept. -/
def buildHeaderMap : JRow → List (String × Nat)
  | .notArr => []
  | .arr cells =>
    cells.enum.foldl
      (fun (m : List (String × Nat)) (p : Nat × String) =>
        let h := norm p.2
        if h = "" then m
        else if (m.lookup h).isSome then m
        else m ++ [(h, p.1)])
      []

/-- The row used to build the header map inside `extractMatrixSteps`:
`headerIndex >= 0 ? rows[headerIndex] : null`, where an out-of-range read and
`null` both fail `Array.isArray`. -/
def headerRowOf (rows : List JRow) : Option Nat → JRow
  | some i => rows.getD i .notArr
  | none => .notArr

/-- The fixed auxiliary-flag label list from `extractMatrixSteps`. -/
def preferredHeaders : List String :=
  ["slack", "refund queue", "create a ticket", "supervisor"]

/-- The display label the code attaches to an auxiliary-flag line. -/
def displayLabel (h : String) : String :=
  if h = "refund queue" then "Refund Queue"
  else if h = "create a ticket" then "Create a Ticket"
  else if h = "supervisor" then "Supervisor"
  else "Slack"

/-- `extractMatrixSteps` from `server.js`; `none` models the `null` return. -/
def extractMatrixSteps (rows : List JRow) (headerIndex : Option Nat)
    (rowIndex : Nat) : Option String :=
  match rows.getD rowIndex .notArr with
  | .notArr => none
  | .arr cells =>
    let colC := jsTrimStr (cells.getD 2 "")
    let base := if colC ≠ "" && !(isNoValue colC) then colC else ""
    let headerMap := buildHeaderMap (headerRowOf rows headerIndex)
    let extras := preferredHeaders.foldl
      (fun acc h =>
        match headerMap.lookup h with
        | none => acc
        | some idx =>
          let yn := normalizeYesNo (cells.getD idx "")
          let ynNorm := norm yn
          if yn = "" || isNoValue yn then acc
          else if ynNorm = "no" || ynNorm = "n" then acc
          else acc ++ [displayLabel h ++ ": " ++ yn])
      []
    if base = "" && extras.isEmpty then none
    else if extras.isEmpty then some base
    else if base ≠ "" then
      some (base ++ "\n\n" ++ String.intercalate "\n" extras)
    else some (String.intercalate "\n" extras)

/-- The `add` closure inside `expandQueryVariants`: skip a falsy argument,
normalize it, and add it to the variant set (insertion order preserved,
duplicates discarded, matching JS `Set` semantics). -/
def addVariant (vs : List String) (s : String) : List String :=
  if s = "" then vs
  else
    let n := norm s
    if vs.contains n then vs else vs ++ [n]

/-- `expandQueryVariants` from `server.js`. -/
def expandQueryVariants (qNorm : String) : List String :=
  let vs := [qNorm]
  let vs :=
    if jsIncludes qNorm "double charged" || jsIncludes qNorm "charged twice" ||
        jsIncludes qNorm "double charge" then
      ["double charged", "charged twice", "duplicate charge",
        "double charge"].foldl addVariant vs
    else vs
  let vs :=
    if jsIncludes qNorm "early departure" then
      ["early departure after check in",
        "early departure after check-in"].foldl addVariant vs
    else vs
  vs.filter (fun v => v ≠ "")

/-- JS `s.split(" ")` on a character list: cut at every single space
character (consecutive spaces yield empty pieces, exactly as in JS). -/
def splitSpaceAux (cur : List Char) : List Char → List (List Char)
  | [] => [cur.reverse]
  | c :: rest =>
    if c = ' ' then cur.reverse :: splitSpaceAux [] rest
    else splitSpaceAux (c :: cur) rest

/-- The token list `s.split(" ").filter(Boolean)` used by `scoreMatch`. -/
def tokensOf (s : String) : List String :=
  ((splitSpaceAux [] s.data).map (fun l => (⟨l⟩ : String))).filter
    (fun t => t ≠ "")

/-- `scoreMatch` from `server.js`.  JS numbers here are naturals: every
produced value is one of `0`, `100`, `85`, `min 80 (45 + overlap * 10)`. -/
def scoreMatch (cellNorm qNorm : String) : Nat :=
  if cellNorm = "" || qNorm = "" then 0
  else if cellNorm = qNorm then 100
  else if jsIncludes cellNorm qNorm || jsIncludes qNorm cellNorm then 85
  else
    let qTokens := tokensOf qNorm
    let cTokens := tokensOf cellNorm
    if qTokens.isEmpty || cTokens.isEmpty then 0
    else
      let overlap := (qTokens.filter (fun t => cTokens.contains t)).length
      let minOverlap := if qTokens.length ≤ 2 then 1 else 2
      if overlap < minOverlap then 0
      else min 80 (45 + overlap * 10)

/-- A `MatchCandidate` (the `hit` object built in `findDirectMatrixAnswer`). -/
structure Hit where
  score : Nat
  sheetName : String
  rowIndex : Nat
  colIndex : Nat
  matchedText : String
  answer : String
deriving DecidableEq, Repr

/-- The inner variant loop of `findDirectMatrixAnswer`:
`score = Math.max(score, scoreMatch(cellNorm, q)); if (score === 100) break`. -/
def variantScore (cellNorm : String) : List String → Nat → Nat
  | [], score => score
  | q :: qs, score =>
    let score := max score (scoreMatch cellNorm q)
    if score = 100 then score else variantScore cellNorm qs score

/-- The best-so-far update of `findDirectMatrixAnswer`:
`if (!bestHit || hit.score > bestHit.score) bestHit = hit`. -/
def updBest (best : Option Hit) (hit : Hit) : Option Hit :=
  match best with
  | none => some hit
  | some b => if hit.score > b.score then some hit else some b

/-- The candidate a given column of a given row contributes, if any: the
normalized cell must be non-empty, the variant-max score non-zero, and
extraction must succeed. -/
def colCandidate (queries : List String) (rows : List JRow)
    (headerIndex : Option Nat) (sheetName : String) (r : Nat)
    (cells : List String) (c : Nat) : Option Hit :=
  let cellRaw := cells.getD c ""
  let cellNorm := norm cellRaw
  if cellNorm = "" then none
  else
    let score := variantScore cellNorm queries 0
    if score = 0 then none
    else
      match extractMatrixSteps rows headerIndex r with
      | none => none
      | some steps =>
        some ⟨score, sheetName, r, c, jsTrimStr cellRaw, jsTrimStr steps⟩

/-- The `for (const c of colsToCheck)` loop, threading the best hit. -/
def scanCols (queries : List String) (rows : List JRow)
    (headerIndex : Option Nat) (sheetName : String) (r : Nat)
    (cells : List String) : List Nat → Option Hit → Option Hit
  | [], best => best
  | c :: cs, best =>
    match colCandidate queries rows headerIndex sheetName r cells c with
    | none => scanCols queries rows headerIndex sheetName r cells cs best
    | some hit =>
      scanCols queries rows headerIndex sheetName r cells cs (updBest best hit)

/-- The columns checked for a row: `row.length > 1 ? [1] : [0]`. -/
def colsToCheck (cells : List String) : List Nat :=
  if cells.length > 1 then [1] else [0]

/-- The `for (let r = 0; ...)` loop over the (index, row) pairs of a sheet.
Non-array rows are skipped (`continue`). -/
def scanRows (queries : List String) (rows : List JRow)
    (headerIndex : Option Nat) (sheetName : String) :
    List (Nat × JRow) → Option Hit → Option Hit
  | [], best => best
  | (_, .notArr) :: rest, best =>
    scanRows queries rows headerIndex sheetName rest best
  | (r, .arr cells) :: rest, best =>
    scanRows queries rows headerIndex sheetName rest
      (scanCols queries rows headerIndex sheetName r cells (colsToCheck cells)
        best)

/-- The `for (const [sheetName, rows] of Object.entries(matrixDoc))` loop.
Tabs whose value is not an array are skipped (`continue`); for each array tab
the header row is detected once, then every row is scanned. -/
def scanTabs (queries : List String) :
    List (String × JSheet) → Option Hit → Option Hit
  | [], best => best
  | (_, .notArr) :: rest, best => scanTabs queries rest best
  | (sheetName, .arr rows) :: rest, best =>
    scanTabs queries rest
      (scanRows queries rows (detectHeaderRowIndex rows) sheetName rows.enum
        best)

/-- `findDirectMatrixAnswer` from `server.js`; `none` models `null`. -/
def findDirectMatrixAnswer (matrixDoc : JDoc) (userQuestion : String) :
    Option Hit :=
  match matrixDoc with
  | .notObj => none
  | .obj entries =>
    let q0 := norm userQuestion
    if q0 = "" then none
    else scanTabs (expandQueryVariants q0) entries none

/-- All candidates a column list produces, in scan order. -/
def colCandidates (queries : List String) (rows : List JRow)
    (headerIndex : Option Nat) (sheetName : String) (r : Nat)
    (cells : List String) : List Nat → List Hit
  | [] => []
  | c :: cs =>
    match colCandidate queries rows headerIndex sheetName r cells c with
    | none => colCandidates queries rows headerIndex sheetName r cells cs
    | some hit =>
      hit :: colCandidates queries rows headerIndex sheetName r cells cs

/-- All candidates a sheet produces, in scan order. -/
def rowCandidates (queries : List String) (rows : List JRow)
    (headerIndex : Option Nat) (sheetName : String) :
    List (Nat × JRow) → List Hit
  | [] => []
  | (_, .notArr) :: rest => rowCandidates queries rows headerIndex sheetName rest
  | (r, .arr cells) :: rest =>
    colCandidates queries rows headerIndex sheetName r cells (colsToCheck cells)
      ++ rowCandidates queries rows headerIndex sheetName rest

/-- All candidates a document's tabs produce, in scan order. -/
def tabCandidates (queries : List String) : List (String × JSheet) → List Hit
  | [] => []
  | (_, .notArr) :: rest => tabCandidates queries rest
  | (sheetName, .arr rows) :: rest =>
    rowCandidates queries rows (detectHeaderRowIndex rows) sheetName rows.enum
      ++ tabCandidates queries rest

/-- Every `MatchCandidate` one invocation of the resolver builds, in the
order the scan builds them (earlier tab first, then earlier row). -/
def candidates (matrixDoc : JDoc) (userQuestion : String) : List Hit :=
  match matrixDoc with
  | .notObj => []
  | .obj entries =>
    let q0 := norm userQuestion
    if q0 = "" then []
    else tabCandidates (expandQueryVariants q0) entries

/-- The explicit strictly-greater-than fold the spec mandates for choosing
the best candidate (`best = candidate if best is none or
candidate.score > best.score`). -/
def foldBest (cs : List Hit) (best : Option Hit) : Option Hit :=
  cs.foldl updBest best

/-- The token-overlap tier of the scoring contract, stated from the spec's
wording (§4.4, tier 3): split both normalized strings into whitespace tokens,
count the query tokens present among the cell's tokens, require at least 1
matching token for queries of at most 2 tokens and at least 2 otherwise, and
score `min 80 (45 + overlap * 10)` when the floor is met. -/
def tokenOverlapScore (cellNorm qNorm : String) : Nat :=
  let qTokens := tokensOf qNorm
  let cTokens := tokensOf cellNorm
  if qTokens.isEmpty || cTokens.isEmpty then 0
  else
    let overlap := (qTokens.filter (fun t => cTokens.contains t)).length
    let minOverlap := if qTokens.length ≤ 2 then 1 else 2
    if overlap < minOverlap then 0 else min 80 (45 + overlap * 10)

/-- The auxiliary-flag line one label contributes, per the spec's wording
(§4.5): if the header map contains the label, read the row's cell at the
mapped column, run it through `normalizeYesNo`, and produce
`"<DisplayLabel>: <value>"` when the result is neither absent (per
`isAbsent`) nor normalizing to "no"/"n". -/
def extraLine (hm : List (String × Nat)) (cells : List String)
    (h : String) : Option String :=
  (hm.lookup h).bind
    (fun idx =>
      if isNoValue (normalizeYesNo (cells.getD idx "")) ||
          norm (normalizeYesNo (cells.getD idx "")) = "no" ||
          norm (normalizeYesNo (cells.getD idx "")) = "n" then none
      else some (displayLabel h ++ ": " ++ normalizeYesNo (cells.getD idx "")))

/-- Answer extraction as the spec describes it (§4.5): the base is the
matched row's column-index-2 cell kept verbatim when it passes the
`isAbsent` filter, one `"<DisplayLabel>: <value>"` line is collected for
each auxiliary label whose mapped cell value, run through `normalizeYesNo`,
is neither absent nor normalizing to "no"/"n", and the result assembles
base and extras with a blank line between them, degrading to "no answer"
(`none`) when both are empty. -/
def extractAnswerSpec (rows : List JRow) (headerIndex : Option Nat)
    (rowIndex : Nat) : Option String :=
  match rows.getD rowIndex .notArr with
  | .notArr => none
  | .arr cells =>
    let headerMap := buildHeaderMap (headerRowOf rows headerIndex)
    let remedy := jsTrimStr (cells.getD 2 "")
    let base : Option String := if isNoValue remedy then none else some remedy
    let extras := preferredHeaders.filterMap (extraLine headerMap cells)
    match base, extras with
    | none, [] => none
    | some b, [] => some b
    | some b, es => some (b ++ "\n\n" ++ String.intercalate "\n" es)
    | none, es => some (String.intercalate "\n" es)

/-- C6: a question that normalizes to the empty string (in particular the
empty or whitespace-only question) makes `findDirectMatrixAnswer` return
`none` for every matrix document, without producing any candidate. -/
theorem findDirectMatrixAnswer_empty_question (doc : JDoc) (uq : String)
    (h : norm uq = "") : findDirectMatrixAnswer doc uq = none := by
  cases doc with
  | notObj => rfl
  | obj entries => simp [findDirectMatrixAnswer, h]

/-- Witness for C6: the whitespace-and-punctuation question `"  !?  "`
normalizes to the empty string, and the resolver returns `none` on a document
that does contain a matching-looking row. -/
theorem findDirectMatrixAnswer_empty_question_witness :
    norm "  !?  " = "" ∧
      findDirectMatrixAnswer
        (.obj [("T", .arr [.arr ["1", "refund", "Do X"]])]) "  !?  " = none :=
  ⟨by decide,
    findDirectMatrixAnswer_empty_question
      (.obj [("T", .arr [.arr ["1", "refund", "Do X"]])]) "  !?  " (by decide)⟩

/-- C7: the resolver is a total function — for any document shape it
terminates in `none` or a candidate — a non-object document yields `none`,
a tab whose value is not an array is skipped without affecting the scan,
a non-array row is skipped without affecting the scan, and a row with no
cells (missing cells read as absent) is skipped without affecting the
scan. -/
theorem findDirectMatrixAnswer_total_skip :
    (∀ uq, findDirectMatrixAnswer .notObj uq = none) ∧
    (∀ name rest uq,
      findDirectMatrixAnswer (.obj ((name, .notArr) :: rest)) uq =
        findDirectMatrixAnswer (.obj rest) uq) ∧
    (∀ queries rows hi name r rest best,
      scanRows queries rows hi name ((r, .notArr) :: rest) best =
        scanRows queries rows hi name rest best) ∧
    (∀ queries rows hi name r rest best,
      scanRows queries rows hi name ((r, .arr []) :: rest) best =
        scanRows queries rows hi name rest best) ∧
    (∀ doc uq,
      findDirectMatrixAnswer doc uq = none ∨
        ∃ hit, findDirectMatrixAnswer doc uq = some hit) := by
  refine ⟨fun uq => rfl, fun name rest uq => ?_, fun _ _ _ _ _ _ _ => rfl,
    fun _ _ _ _ _ _ _ => rfl, fun doc uq => ?_⟩
  · by_cases h : norm uq = "" <;> simp [findDirectMatrixAnswer, h, scanTabs]
  · cases h : findDirectMatrixAnswer doc uq with
    | none => exact Or.inl rfl
    | some hit => exact Or.inr ⟨hit, rfl⟩

/-- C8: the concern-cell check uses emptiness of the normalized text, not
`isAbsent`: a concern cell `"N/A"` (normalizing to `"na"`, which `isAbsent`
classifies as absent) is still scored and matched, while an answer cell
`"N/A"` is filtered out by `isAbsent` (killing the candidate) and a flag
cell `"N/A"` is filtered out of the extras. -/
theorem concern_check_uses_emptiness :
    isNoValue "N/A" = true ∧ norm "N/A" = "na" ∧
    findDirectMatrixAnswer
        (.obj [("T", .arr [.arr ["1", "N/A", "Escalate now"]])]) "na" =
      some ⟨100, "T", 0, 1, "N/A", "Escalate now"⟩ ∧
    findDirectMatrixAnswer
        (.obj [("T", .arr [.arr ["1", "Guest issue", "N/A"]])]) "guest issue" =
      none ∧
    findDirectMatrixAnswer
        (.obj [("T",
          .arr [.arr ["#", "Concern", "Instructions", "Slack"],
                .arr ["1", "Billing problem", "Do X", "N/A"]])])
        "billing problem" =
      some ⟨100, "T", 1, 1, "Billing problem", "Do X"⟩ := by
  decide

/-- C10: the detected header row is not excluded from matching — on this
document `detectHeaderRowIndex` returns index 0 and the resolver returns the
candidate at that same row index, built from the header row itself. -/
theorem header_row_is_matchable :
    detectHeaderRowIndex [.arr ["x", "Concern", "Do this"]] = some 0 ∧
    findDirectMatrixAnswer
        (.obj [("T", .arr [.arr ["x", "Concern", "Do this"]])]) "concern" =
      some ⟨100, "T", 0, 1, "Concern", "Do this"⟩ := by
  decide

/-- Whitespace characters surviving `collapseWS` are single spaces. -/
theorem collapseWS_ws_mem :
    ∀ (b : Bool) (l : List Char) (c : Char),
      c ∈ collapseWS b l → isWS c = true → c = ' ' := by
  intro b l
  induction l generalizing b with
  | nil => intro c h _; simp [collapseWS] at h
  | cons a rest ih =>
    intro c hmem hws
    unfold collapseWS at hmem
    by_cases ha : isWS a = true
    · rw [if_pos ha] at hmem
      cases b with
      | true =>
        simp only [if_pos] at hmem
        exact ih true c hmem hws
      | false =>
        simp only [Bool.false_eq_true, if_false, List.mem_cons] at hmem
        rcases hmem with h1 | h2
        · exact h1
        · exact ih true c h2 hws
    · rw [if_neg ha] at hmem
      rcases List.mem_cons.mp hmem with h1 | h2
      · subst h1; exact absurd hws ha
      · exact ih false c h2 hws

/-- C2 counterexample: removing punctuation happens after whitespace
collapsing, so `norm "a . b"` keeps two consecutive spaces and
`norm ". a"` keeps a leading space, contradicting the claimed
no-leading/trailing-whitespace and no-double-space guarantee. -/
theorem norm_whitespace_cex :
    norm "a . b" = "a  b" ∧ jsIncludes (norm "a . b") "  " = true ∧
      norm ". a" = " a" := by
  decide

/-- C2 (amended): `norm` lower-cases, trims, collapses whitespace runs to
single spaces and then strips the characters that are not letters, digits or
whitespace; consequently every character of the output is a letter, a digit,
or the single space character (no other whitespace survives), though leading,
trailing or repeated spaces may remain where punctuation was removed. -/
theorem norm_output_chars (s : String) :
    (norm s).data.all (fun c => c.isAlpha || c.isDigit || c = ' ') = true := by
  rw [List.all_eq_true]
  intro c hc
  have hc' :
      c ∈ List.filter isWordChar
        (collapseWS false (jsTrimList (s.data.map Char.toLower))) := hc
  rw [List.mem_filter] at hc'
  obtain ⟨hmem, hword⟩ := hc'
  unfold isWordChar at hword
  cases hA : c.isAlpha with
  | true => simp [hA]
  | false =>
    cases hD : c.isDigit with
    | true => simp [hD]
    | false =>
      have hw : isWS c = true := by
        rw [hA, hD] at hword
        simpa using hword
      have hsp := collapseWS_ws_mem false _ c hmem hw
      simp [hsp]

/-- Every value `scoreMatch` produces is `0`, `100`, `85`, or lies in
`[55, 80]` (the token-overlap tier with at least one matching token). -/
theorem scoreMatch_cases (c q : String) :
    scoreMatch c q = 0 ∨ scoreMatch c q = 100 ∨ scoreMatch c q = 85 ∨
      (55 ≤ scoreMatch c q ∧ scoreMatch c q ≤ 80) := by
  simp only [scoreMatch]
  split
  · exact Or.inl rfl
  split
  · exact Or.inr (Or.inl rfl)
  split
  · exact Or.inr (Or.inr (Or.inl rfl))
  split
  · exact Or.inl rfl
  · set ov :=
      ((tokensOf q).filter (fun t => (tokensOf c).contains t)).length
      with hov
    set mo := (if (tokensOf q).length ≤ 2 then 1 else 2 : Nat) with hmo
    by_cases h : ov < mo
    · rw [if_pos h]
      exact Or.inl rfl
    · rw [if_neg h]
      right; right; right
      have h1 : 1 ≤ mo := by
        rw [hmo]; split <;> norm_num
      have h2 : 1 ≤ ov := by omega
      constructor
      · exact le_min (by norm_num) (by omega)
      · exact min_le_left _ _

/-- C3 counterexample: the claim promises 100 on exact equality, but the
empty-string guard fires first — on the (equal) pair of empty strings the
code returns 0, not 100. -/
theorem scoreMatch_empty_equal_cex :
    ("" : String) = "" ∧ scoreMatch "" "" ≠ 100 ∧ scoreMatch "" "" = 0 :=
  ⟨rfl, by decide, by decide⟩

/-- C3 (amended): `scoreMatch` returns 0 when either normalized string is
empty; otherwise 100 on exact equality, 85 on substring containment in
either direction, and the token-overlap tier value otherwise; the result is
always in `{0} ∪ [45, 100]`, never negative and never above 100. -/
theorem scoreMatch_contract (c q : String) :
    (scoreMatch c q = 0 ∨ (45 ≤ scoreMatch c q ∧ scoreMatch c q ≤ 100)) ∧
    ((c = "" ∨ q = "") → scoreMatch c q = 0) ∧
    (c ≠ "" → q ≠ "" → c = q → scoreMatch c q = 100) ∧
    (c ≠ "" → q ≠ "" → c ≠ q →
      (jsIncludes c q || jsIncludes q c) = true → scoreMatch c q = 85) ∧
    (c ≠ "" → q ≠ "" → c ≠ q →
      (jsIncludes c q || jsIncludes q c) = false →
      scoreMatch c q = tokenOverlapScore c q) := by
  refine ⟨?_, ?_, ?_, ?_, ?_⟩
  · rcases scoreMatch_cases c q with h | h | h | h
    · exact Or.inl h
    · exact Or.inr (by omega)
    · exact Or.inr (by omega)
    · exact Or.inr (by omega)
  · rintro (h | h) <;> simp [scoreMatch, h]
  · intro hc hq heq
    simp [scoreMatch, hc, hq, heq]
  · intro hc hq hne hinc
    simp [scoreMatch, hc, hq, hne, hinc]
  · intro hc hq hne hinc
    simp only [Bool.or_eq_false_iff] at hinc
    simp [scoreMatch, tokenOverlapScore, hc, hq, hne, hinc.1, hinc.2]

/-- Witness for C3 (amended): concrete instances of the guard, the equality
tier and the containment tier. -/
theorem scoreMatch_contract_witness :
    scoreMatch "" "x" = 0 ∧ scoreMatch "na" "na" = 100 ∧
      scoreMatch "guest was double charged" "double charged" = 85 :=
  ⟨(scoreMatch_contract "" "x").2.1 (Or.inl rfl),
    (scoreMatch_contract "na" "na").2.2.1 (by decide) (by decide) rfl,
    (scoreMatch_contract "guest was double charged" "double charged").2.2.2.1
      (by decide) (by decide) (by decide) (by decide)⟩

/-- C4: with equality and containment ruled out, any token overlap below the
minimum required overlap (1 matching token for queries of at most 2 tokens,
2 otherwise) scores 0; in particular a query of more than 2 tokens sharing
exactly one token with the cell scores 0. -/
theorem scoreMatch_overlap_floor (c q : String)
    (hc : c ≠ "") (hq : q ≠ "") (hne : c ≠ q)
    (h1 : jsIncludes c q = false) (h2 : jsIncludes q c = false) :
    (((tokensOf q).filter (fun t => (tokensOf c).contains t)).length <
        (if (tokensOf q).length ≤ 2 then 1 else 2) →
      scoreMatch c q = 0) ∧
    (2 < (tokensOf q).length →
      ((tokensOf q).filter (fun t => (tokensOf c).contains t)).length = 1 →
      scoreMatch c q = 0) := by
  have key :
      ((tokensOf q).filter (fun t => (tokensOf c).contains t)).length <
        (if (tokensOf q).length ≤ 2 then 1 else 2) →
      scoreMatch c q = 0 := by
    intro hlt
    simp only [scoreMatch]
    rw [if_neg (by simp [hc, hq]), if_neg hne, if_neg (by simp [h1, h2])]
    by_cases hE : ((tokensOf q).isEmpty || (tokensOf c).isEmpty) = true
    · rw [if_pos hE]
    · rw [if_neg hE, if_pos hlt]
  refine ⟨key, fun hgt hone => key ?_⟩
  rw [hone, if_neg (by omega)]
  norm_num

/-- Witness for C4: the 3-token query "refund the guest" shares only the
token "refund" with the cell "refund policy document", so it scores 0. -/
theorem scoreMatch_overlap_floor_witness :
    scoreMatch "refund policy document" "refund the guest" = 0 :=
  (scoreMatch_overlap_floor "refund policy document" "refund the guest"
      (by decide) (by decide) (by decide) (by decide) (by decide)).2
    (by decide) (by decide)

/-- The loop body of the extras accumulation in `extractMatrixSteps` appends
exactly the line `extraLine` yields for the label (the `yn = ""` and
"no"/"n" skip conditions are subsumed by `isNoValue`). -/
theorem extras_body_eq (hm : List (String × Nat)) (cells : List String)
    (acc : List String) (h : String) :
    (match hm.lookup h with
      | none => acc
      | some idx =>
        if normalizeYesNo (cells.getD idx "") = "" ||
            isNoValue (normalizeYesNo (cells.getD idx "")) then acc
        else if norm (normalizeYesNo (cells.getD idx "")) = "no" ||
            norm (normalizeYesNo (cells.getD idx "")) = "n" then acc
        else acc ++
          [displayLabel h ++ ": " ++ normalizeYesNo (cells.getD idx "")]) =
    (match extraLine hm cells h with
      | none => acc
      | some s => acc ++ [s]) := by
  cases hl : hm.lookup h with
  | none => simp [extraLine, hl]
  | some idx =>
    simp only [extraLine, hl, Option.some_bind]
    set v := normalizeYesNo (cells.getD idx "") with hv
    by_cases h1 : v = ""
    · have hNo : isNoValue v = true := by rw [h1]; decide
      simp [hNo]
    by_cases h2 : isNoValue v = true
    · simp [h1, h2]
    by_cases h3 : norm v = "no"
    · exact absurd (by simp [isNoValue, h3]) h2
    by_cases h4 : norm v = "n"
    · exact absurd (by simp [isNoValue, h4]) h2
    · simp [h1, h2, h3, h4]

/-- Folding an append-if-some body over a list collects the `filterMap`. -/
theorem foldl_optAppend (F : String → Option String) :
    ∀ (l : List String) (acc : List String),
      List.foldl
        (fun acc h =>
          match F h with
          | none => acc
          | some s => acc ++ [s])
        acc l = acc ++ l.filterMap F := by
  intro l
  induction l with
  | nil => intro acc; simp
  | cons a rest ih =>
    intro acc
    rw [List.foldl_cons, List.filterMap_cons]
    cases hFa : F a with
    | none => simp only [hFa]; exact ih acc
    | some s => simp [hFa, ih (acc ++ [s])]

/-- C5: `extractMatrixSteps` implements the spec's answer-extraction
contract `extractAnswerSpec`: verbatim column-index-2 base filtered by
`isAbsent`, one "<DisplayLabel>: <value>" line per passing auxiliary label,
`none` ("no answer") when both are empty, base + blank line + extras when
both are present, and the joined extras alone otherwise. -/
theorem extractMatrixSteps_eq_spec (rows : List JRow) (hi : Option Nat)
    (ri : Nat) :
    extractMatrixSteps rows hi ri = extractAnswerSpec rows hi ri := by
  simp only [extractMatrixSteps, extractAnswerSpec]
  rcases hrow : rows.getD ri .notArr with _ | cells
  · rfl
  · dsimp only
    rw [List.foldl_ext _
        (fun acc h =>
          match extraLine (buildHeaderMap (headerRowOf rows hi)) cells h with
          | none => acc
          | some s => acc ++ [s])
        []
        (fun acc h _ =>
          extras_body_eq (buildHeaderMap (headerRowOf rows hi)) cells acc h),
      foldl_optAppend, List.nil_append]
    set b := jsTrimStr (cells.getD 2 "") with hb
    by_cases hNo : isNoValue b = true
    · rcases hes : List.filterMap
          (extraLine (buildHeaderMap (headerRowOf rows hi)) cells)
          preferredHeaders with _ | ⟨e, es⟩ <;>
        simp [hNo, hes]
    · have hcne : b ≠ "" := fun h => hNo (by rw [h]; decide)
      rcases hes : List.filterMap
          (extraLine (buildHeaderMap (headerRowOf rows hi)) cells)
          preferredHeaders with _ | ⟨e, es⟩ <;>
        simp [hNo, hcne, hes]

/-- The column loop threads the best hit exactly as folding `updBest` over
the column candidates. -/
theorem scanCols_eq_foldBest (queries : List String) (rows : List JRow)
    (hi : Option Nat) (name : String) (r : Nat) (cells : List String) :
    ∀ (cols : List Nat) (best : Option Hit),
      scanCols queries rows hi name r cells cols best =
        foldBest (colCandidates queries rows hi name r cells cols) best := by
  intro cols
  induction cols with
  | nil => intro best; rfl
  | cons c cs ih =>
    intro best
    cases hc : colCandidate queries rows hi name r cells c with
    | none =>
      simp only [scanCols, colCandidates, hc]
      exact ih best
    | some hit =>
      simp only [scanCols, colCandidates, hc, foldBest, List.foldl_cons]
      exact ih (updBest best hit)

/-- The row loop threads the best hit exactly as folding `updBest` over the
row candidates. -/
theorem scanRows_eq_foldBest (queries : List String) (rows : List JRow)
    (hi : Option Nat) (name : String) :
    ∀ (l : List (Nat × JRow)) (best : Option Hit),
      scanRows queries rows hi name l best =
        foldBest (rowCandidates queries rows hi name l) best := by
  intro l
  induction l with
  | nil => intro best; rfl
  | cons p rest ih =>
    intro best
    rcases p with ⟨r, _ | cells⟩
    · simp only [scanRows, rowCandidates]
      exact ih best
    · simp only [scanRows, rowCandidates, foldBest, List.foldl_append]
      rw [scanCols_eq_foldBest]
      exact ih _

/-- The tab loop threads the best hit exactly as folding `updBest` over the
tab candidates. -/
theorem scanTabs_eq_foldBest (queries : List String) :
    ∀ (entries : List (String × JSheet)) (best : Option Hit),
      scanTabs queries entries best =
        foldBest (tabCandidates queries entries) best := by
  intro entries
  induction entries with
  | nil => intro best; rfl
  | cons p rest ih =>
    intro best
    rcases p with ⟨name, _ | rows⟩
    · simp only [scanTabs, tabCandidates]
      exact ih best
    · simp only [scanTabs, tabCandidates, foldBest, List.foldl_append]
      rw [scanRows_eq_foldBest]
      exact ih _

/-- `findDirectMatrixAnswer` equals the strictly-greater-than fold of
`updBest` over the candidate list, started from `none`. -/
theorem findDirect_eq_foldBest (doc : JDoc) (uq : String) :
    findDirectMatrixAnswer doc uq = foldBest (candidates doc uq) none := by
  cases doc with
  | notObj => rfl
  | obj entries =>
    simp only [findDirectMatrixAnswer, candidates]
    by_cases h : norm uq = ""
    · simp [h, foldBest]
    · simp only [if_neg h]
      exact scanTabs_eq_foldBest (expandQueryVariants (norm uq)) entries none

/-- Folding `updBest` from `some b` yields either `b` itself (when nothing
beats it strictly) or the first list element strictly beating everything
before it and at least tying everything after it. -/
theorem foldBest_some_analysis :
    ∀ (cs : List Hit) (b : Hit),
      (List.foldl updBest (some b) cs = some b ∧
        ∀ d ∈ cs, d.score ≤ b.score) ∨
      (∃ r pre post, cs = pre ++ r :: post ∧
        List.foldl updBest (some b) cs = some r ∧ b.score < r.score ∧
        (∀ d ∈ pre, d.score < r.score) ∧ ∀ d ∈ post, d.score ≤ r.score) := by
  intro cs
  induction cs with
  | nil => intro b; exact Or.inl ⟨rfl, by simp⟩
  | cons c rest ih =>
    intro b
    rw [List.foldl_cons]
    by_cases hc : c.score > b.score
    · have hupd : updBest (some b) c = some c := by simp [updBest, hc]
      rw [hupd]
      rcases ih c with ⟨h1, h2⟩ | ⟨r, pre, post, hsplit, hres, hbr, hpre, hpost⟩
      · exact Or.inr ⟨c, [], rest, rfl, h1, hc, by simp, h2⟩
      · refine Or.inr ⟨r, c :: pre, post, by rw [hsplit, List.cons_append], hres,
          Nat.lt_trans hc hbr, ?_, hpost⟩
        intro d hd
        rcases List.mem_cons.mp hd with rfl | hd'
        · exact hbr
        · exact hpre d hd'
    · have hle : c.score ≤ b.score := Nat.not_lt.mp hc
      have hupd : updBest (some b) c = some b := by simp [updBest, hc]
      rw [hupd]
      rcases ih b with ⟨h1, h2⟩ | ⟨r, pre, post, hsplit, hres, hbr, hpre, hpost⟩
      · refine Or.inl ⟨h1, ?_⟩
        intro d hd
        rcases List.mem_cons.mp hd with rfl | hd'
        · exact hle
        · exact h2 d hd'
      · refine Or.inr ⟨r, c :: pre, post, by rw [hsplit, List.cons_append], hres, hbr, ?_, hpost⟩
        intro d hd
        rcases List.mem_cons.mp hd with rfl | hd'
        · exact Nat.lt_of_le_of_lt hle hbr
        · exact hpre d hd'

/-- C1: `findDirectMatrixAnswer` equals the explicit
`best = candidate if best is none or candidate.score > best.score` fold over
the scan-ordered candidate list; it returns `none` exactly when no tab/row
produced a candidate, and the returned candidate has the maximum score with
every earlier-scanned candidate scoring strictly less (first-found wins on
ties). -/
theorem findDirectMatrixAnswer_picks_first_max (doc : JDoc) (uq : String) :
    findDirectMatrixAnswer doc uq = foldBest (candidates doc uq) none ∧
    (findDirectMatrixAnswer doc uq = none ↔ candidates doc uq = []) ∧
    ∀ hit, findDirectMatrixAnswer doc uq = some hit →
      (∀ d ∈ candidates doc uq, d.score ≤ hit.score) ∧
      ∃ pre post, candidates doc uq = pre ++ hit :: post ∧
        ∀ d ∈ pre, d.score < hit.score := by
  have h0 := findDirect_eq_foldBest doc uq
  refine ⟨h0, ?_, ?_⟩
  · rw [h0]
    cases hcs : candidates doc uq with
    | nil => simp [foldBest]
    | cons c rest =>
      simp only [foldBest, List.foldl_cons]
      have hred : updBest none c = some c := rfl
      rw [hred]
      constructor
      · intro hnone
        rcases foldBest_some_analysis rest c with ⟨h1, _⟩ |
            ⟨r, pre, post, _, hres, _, _, _⟩
        · rw [h1] at hnone; exact absurd hnone (by simp)
        · rw [hres] at hnone; exact absurd hnone (by simp)
      · intro h; exact absurd h (by simp)
  · intro hit hhit
    rw [h0] at hhit
    cases hcs : candidates doc uq with
    | nil => rw [hcs] at hhit; simp [foldBest] at hhit
    | cons c rest =>
      rw [hcs] at hhit
      simp only [foldBest, List.foldl_cons] at hhit
      have hred : updBest none c = some c := rfl
      rw [hred] at hhit
      rcases foldBest_some_analysis rest c with ⟨h1, h2⟩ |
          ⟨r, pre, post, hsplit, hres, hbr, hpre, hpost⟩
      · rw [h1] at hhit
        injection hhit with hch
        subst hch
        refine ⟨?_, [], rest, rfl, by simp⟩
        intro d hd
        rcases List.mem_cons.mp hd with rfl | hd'
        · exact Nat.le_refl _
        · exact h2 d hd'
      · rw [hres] at hhit
        injection hhit with hch
        subst hch
        refine ⟨?_, c :: pre, post, by rw [hsplit, List.cons_append], ?_⟩
        · intro d hd
          rcases List.mem_cons.mp hd with rfl | hd'
          · exact Nat.le_of_lt hbr
          · rw [hsplit] at hd'
            rcases List.mem_append.mp hd' with hdpre | hdrp
            · exact Nat.le_of_lt (hpre d hdpre)
            · rcases List.mem_cons.mp hdrp with rfl | hdpost
              · exact Nat.le_refl _
              · exact hpost d hdpost
        · intro d hd
          rcases List.mem_cons.mp hd with rfl | hd'
          · exact hbr
          · exact hpre d hd'

/-- Witness for C1: on a document where tab "A" yields a containment match
(score 85) and tab "B" an exact match (score 100), the exact-match candidate
is returned and the earlier candidate's score is bounded by it. -/
theorem findDirectMatrixAnswer_picks_first_max_witness :
    Hit.score ⟨85, "A", 0, 1, "The guest was double charged", "Do A"⟩ ≤
      Hit.score ⟨100, "B", 0, 1, "Double charged", "Do B"⟩ :=
  ((findDirectMatrixAnswer_picks_first_max
        (.obj [("A", .arr [.arr ["x", "The guest was double charged", "Do A"]]),
               ("B", .arr [.arr ["x", "Double charged", "Do B"]])])
        "double charged").2.2
      ⟨100, "B", 0, 1, "Double charged", "Do B"⟩ (by decide)).1
    ⟨85, "A", 0, 1, "The guest was double charged", "Do A"⟩ (by decide)

/-- A nonzero `scoreMatch` value is at least 55. -/
theorem scoreMatch_pos_ge (c q : String) (h : scoreMatch c q ≠ 0) :
    55 ≤ scoreMatch c q := by
  rcases scoreMatch_cases c q with h0 | h0 | h0 | ⟨h0, _⟩
  · exact absurd h0 h
  · omega
  · omega
  · exact h0

/-- The variant loop preserves "zero or at least 55". -/
theorem variantScore_cases (cell : String) :
    ∀ (qs : List String) (s : Nat), (s = 0 ∨ 55 ≤ s) →
      (variantScore cell qs s = 0 ∨ 55 ≤ variantScore cell qs s) := by
  intro qs
  induction qs with
  | nil => intro s hs; exact hs
  | cons q rest ih =>
    intro s hs
    have hnew : max s (scoreMatch cell q) = 0 ∨
        55 ≤ max s (scoreMatch cell q) := by
      rcases hs with rfl | h55
      · rcases scoreMatch_cases cell q with h0 | h0 | h0 | ⟨h0, _⟩ <;> omega
      · right; exact Nat.le_trans h55 (Nat.le_max_left _ _)
    simp only [variantScore]
    split
    · rename_i h100
      right
      rw [h100]
      norm_num
    · exact ih _ hnew

/-- Any hit a column contributes has score at least 55: its score is the
nonzero variant-loop value. -/
theorem colCandidate_score (queries : List String) (rows : List JRow)
    (hi : Option Nat) (name : String) (r : Nat) (cells : List String)
    (c : Nat) (hit : Hit)
    (h : colCandidate queries rows hi name r cells c = some hit) :
    55 ≤ hit.score := by
  simp only [colCandidate] at h
  by_cases h1 : norm (cells.getD c "") = ""
  · rw [if_pos h1] at h
    exact absurd h (by simp)
  rw [if_neg h1] at h
  by_cases h2 : variantScore (norm (cells.getD c "")) queries 0 = 0
  · rw [if_pos h2] at h
    exact absurd h (by simp)
  rw [if_neg h2] at h
  cases hx : extractMatrixSteps rows hi r with
  | none => rw [hx] at h; exact absurd h (by simp)
  | some steps =>
    rw [hx] at h
    injection h with h'
    subst h'
    rcases variantScore_cases (norm (cells.getD c "")) queries 0
        (Or.inl rfl) with hzero | h55
    · exact absurd hzero h2
    · exact h55

/-- Every column candidate in the collected list scores at least 55. -/
theorem mem_colCandidates_score (queries : List String) (rows : List JRow)
    (hi : Option Nat) (name : String) (r : Nat) (cells : List String) :
    ∀ (cols : List Nat) (hit : Hit),
      hit ∈ colCandidates queries rows hi name r cells cols →
        55 ≤ hit.score := by
  intro cols
  induction cols with
  | nil => intro hit h; simp [colCandidates] at h
  | cons c cs ih =>
    intro hit h
    cases hc : colCandidate queries rows hi name r cells c with
    | none =>
      rw [colCandidates, hc] at h
      exact ih hit h
    | some hit' =>
      rw [colCandidates, hc] at h
      rcases List.mem_cons.mp h with rfl | h'
      · exact colCandidate_score queries rows hi name r cells c hit hc
      · exact ih hit h'

/-- Every row candidate in the collected list scores at least 55. -/
theorem mem_rowCandidates_score (queries : List String) (rows : List JRow)
    (hi : Option Nat) (name : String) :
    ∀ (l : List (Nat × JRow)) (hit : Hit),
      hit ∈ rowCandidates queries rows hi name l → 55 ≤ hit.score := by
  intro l
  induction l with
  | nil => intro hit h; simp [rowCandidates] at h
  | cons p rest ih =>
    intro hit h
    rcases p with ⟨r, _ | cells⟩
    · rw [rowCandidates] at h
      exact ih hit h
    · rw [rowCandidates] at h
      rcases List.mem_append.mp h with h' | h'
      · exact mem_colCandidates_score queries rows hi name r cells _ hit h'
      · exact ih hit h'

/-- Every tab candidate in the collected list scores at least 55. -/
theorem mem_tabCandidates_score (queries : List String) :
    ∀ (entries : List (String × JSheet)) (hit : Hit),
      hit ∈ tabCandidates queries entries → 55 ≤ hit.score := by
  intro entries
  induction entries with
  | nil => intro hit h; simp [tabCandidates] at h
  | cons p rest ih =>
    intro hit h
    rcases p with ⟨name, _ | rows⟩
    · rw [tabCandidates] at h
      exact ih hit h
    · rw [tabCandidates] at h
      rcases List.mem_append.mp h with h' | h'
      · exact mem_rowCandidates_score queries rows _ name _ hit h'
      · exact ih hit h'

/-- Every candidate the resolver ever builds scores at least 55. -/
theorem mem_candidates_score (doc : JDoc) (uq : String) (hit : Hit)
    (h : hit ∈ candidates doc uq) : 55 ≤ hit.score := by
  cases doc with
  | notObj => simp [candidates] at h
  | obj entries =>
    simp only [candidates] at h
    by_cases hq : norm uq = ""
    · rw [if_pos hq] at h
      simp at h
    · rw [if_neg hq] at h
      exact mem_tabCandidates_score _ entries hit h

/-- The `updBest` fold yields its start value or a list member. -/
theorem foldBest_mem :
    ∀ (cs : List Hit) (b : Option Hit) (r : Hit),
      List.foldl updBest b cs = some r → b = some r ∨ r ∈ cs := by
  intro cs
  induction cs with
  | nil => intro b r h; exact Or.inl h
  | cons c rest ih =>
    intro b r h
    rw [List.foldl_cons] at h
    rcases ih (updBest b c) r h with h' | h'
    · cases b with
      | none =>
        injection h' with h''
        exact Or.inr (List.mem_cons.mpr (Or.inl h''.symm))
      | some b' =>
        simp only [updBest] at h'
        by_cases hcb : c.score > b'.score
        · rw [if_pos hcb] at h'
          injection h' with h''
          exact Or.inr (List.mem_cons.mpr (Or.inl h''.symm))
        · rw [if_neg hcb] at h'
          exact Or.inl h'
    · exact Or.inr (List.mem_cons.mpr (Or.inr h'))

/-- C9: every nonzero `scoreMatch` value is at least 55 (the lowest
token-overlap score under the minimum-overlap gate is 45 + 1·10), so every
candidate `findDirectMatrixAnswer` returns has score at least 55 and scores
in [45, 55) never occur. -/
theorem score_floor_55 :
    (∀ c q, scoreMatch c q ≠ 0 → 55 ≤ scoreMatch c q) ∧
    ∀ (doc : JDoc) (uq : String) (hit : Hit),
      findDirectMatrixAnswer doc uq = some hit → 55 ≤ hit.score := by
  refine ⟨scoreMatch_pos_ge, ?_⟩
  intro doc uq hit h
  rw [findDirect_eq_foldBest] at h
  rcases foldBest_mem (candidates doc uq) none hit h with h' | h'
  · exact absurd h' (by simp)
  · exact mem_candidates_score doc uq hit h'

/-- Witness for C9: a concrete nonzero score is at least 55, and a concrete
returned candidate's score is at least 55. -/
theorem score_floor_55_witness :
    55 ≤ scoreMatch "guest charged" "charged" ∧
      55 ≤ Hit.score ⟨100, "T", 0, 1, "Refund me", "Do this"⟩ :=
  ⟨score_floor_55.1 "guest charged" "charged" (by decide),
    score_floor_55.2 (.obj [("T", .arr [.arr ["x", "Refund me", "Do this"]])])
      "refund me" ⟨100, "T", 0, 1, "Refund me", "Do this"⟩ (by decide)⟩
